import Mathlib

/-!
Shallow embedding of the `nandu` translator (a Rust crate that rewrites
boolean call-expressions over the gates And / Or / Nand into Nand-only
form).  The definitions below are translated directly from the source
files `src/lex.rs`, `src/lib.rs`, `src/parse.rs` and `src/tree.rs`.
Rust panics (`unwrap`, `assert!`, `panic!`, `expect`) are modelled by
`Option`: `none` is a panic, `some` a normal return.
-/

namespace Nandu

/-- Token type of the lexer (`src/lex.rs` and `src/lib.rs`, enum `Token`).
`LexError` is the `#error` variant that the `logos` lexer yields for input
that matches no token pattern. -/
inductive Token : Type where
  | LParen : Token
  | RParen : Token
  | Delim : Token
  | FuncIdent (id : String) : Token
  | VarIdent (id : String) : Token
  | LexError : Token
deriving DecidableEq, Repr

/-- Whitespace skipped by the lexer: the regex `[ \t\n\r\f]+` marked
`logos::skip`. -/
def isWhitespace (c : Char) : Bool :=
  c = ' ' || c = '\t' || c = '\n' || c = '\r' || c = '\x0c'

/-- Character class `[A-Z]` of the `FuncIdent` regex. -/
def isUpperLetter (c : Char) : Bool := 'A' ≤ c && c ≤ 'Z'

/-- Character class `[a-z]` of the `VarIdent` regex. -/
def isLowerLetter (c : Char) : Bool := 'a' ≤ c && c ≤ 'z'

/-- Character class `[A-Za-z]`: the continuation class of `FuncIdent`. -/
def isAnyLetter (c : Char) : Bool := isUpperLetter c || isLowerLetter c

/-- Character class `[a-z_]`: the continuation class of `VarIdent`. -/
def isVarCont (c : Char) : Bool := isLowerLetter c || c = '_'

/-- Lexer state: either between tokens, or inside a maximal-munch run of a
`FuncIdent` (regex `[A-Z][A-Za-z]+`) or of a `VarIdent` (regex
`[a-z][a-z_]*`).  The accumulator holds the characters of the run read so
far, in order. -/
inductive LexState : Type where
  | ready : LexState
  | upperRun (acc : List Char) : LexState
  | lowerRun (acc : List Char) : LexState

/-- End of a capital-letter run: the regex `[A-Z][A-Za-z]+` requires at
least two characters, so a one-character run matches no pattern and yields
the error token. -/
def flushUpper (acc : List Char) : Token :=
  if 2 ≤ acc.length then Token.FuncIdent (String.mk acc) else Token.LexError

/-- End of a lowercase run: `[a-z][a-z_]*` accepts any non-empty run. -/
def flushLower (acc : List Char) : Token :=
  Token.VarIdent (String.mk acc)

/-- Deterministic maximal-munch scanner equivalent to the `logos`-derived
lexer for the token enum of `src/lex.rs`.  It walks the characters once;
on a character that can start no token it emits `LexError` (the `#error`
variant) and continues, as the `logos` token iterator does. -/
def lexRun : LexState → List Char → List Token
  | LexState.ready, [] => []
  | LexState.upperRun acc, [] => [flushUpper acc]
  | LexState.lowerRun acc, [] => [flushLower acc]
  | LexState.ready, c :: cs =>
    if isWhitespace c then lexRun LexState.ready cs
    else if c = '(' then Token.LParen :: lexRun LexState.ready cs
    else if c = ')' then Token.RParen :: lexRun LexState.ready cs
    else if c = ',' then Token.Delim :: lexRun LexState.ready cs
    else if isUpperLetter c then lexRun (LexState.upperRun [c]) cs
    else if isLowerLetter c then lexRun (LexState.lowerRun [c]) cs
    else Token.LexError :: lexRun LexState.ready cs
  | LexState.upperRun acc, c :: cs =>
    if isAnyLetter c then lexRun (LexState.upperRun (acc ++ [c])) cs
    else
      flushUpper acc ::
        (if isWhitespace c then lexRun LexState.ready cs
         else if c = '(' then Token.LParen :: lexRun LexState.ready cs
         else if c = ')' then Token.RParen :: lexRun LexState.ready cs
         else if c = ',' then Token.Delim :: lexRun LexState.ready cs
         else if isLowerLetter c then lexRun (LexState.lowerRun [c]) cs
         else Token.LexError :: lexRun LexState.ready cs)
  | LexState.lowerRun acc, c :: cs =>
    if isVarCont c then lexRun (LexState.lowerRun (acc ++ [c])) cs
    else
      flushLower acc ::
        (if isWhitespace c then lexRun LexState.ready cs
         else if c = '(' then Token.LParen :: lexRun LexState.ready cs
         else if c = ')' then Token.RParen :: lexRun LexState.ready cs
         else if c = ',' then Token.Delim :: lexRun LexState.ready cs
         else if isUpperLetter c then lexRun (LexState.upperRun [c]) cs
         else Token.LexError :: lexRun LexState.ready cs)

/-- Tokenization of an input string (`Token::lexer(input)` collected). -/
def tokenize (s : String) : List Token :=
  lexRun LexState.ready s.data

/-- Parse tree of `src/lib.rs` / `src/tree.rs` (struct `Tree`): a token at
the node plus a vector of branches.  The constructor is named after
`Tree::new`. -/
inductive Tree : Type where
  | new (this : Token) (branches : List Tree)

/-- Field accessor for `Tree.this`. -/
def Tree.this : Tree → Token
  | Tree.new t _ => t

/-- Field accessor for `Tree.branches`. -/
def Tree.branches : Tree → List Tree
  | Tree.new _ b => b

/-- Constructor `Tree::leaf`: a tree without any branches. -/
def Tree.leaf (token : Token) : Tree := Tree.new token []

/-- Helper `nand` of `src/lib.rs` / `src/tree.rs`: a new Nand function
tree over the given arguments. -/
def nand (args : List Tree) : Tree :=
  Tree.new (Token.FuncIdent "Nand") args

/-- Function `and_to_nand` (src/lib.rs:101-111): asserts the node is an
`And` with exactly two branches (`none` models the `assert_eq!` panic),
relabels the node to `Nand`, clones it, and wraps the two copies in an
outer `Nand`. -/
def and_to_nand : Tree → Option Tree
  | Tree.new tok [a1, a2] =>
    if tok = Token.FuncIdent "And" then
      some (nand [Tree.new (Token.FuncIdent "Nand") [a1, a2],
                  Tree.new (Token.FuncIdent "Nand") [a1, a2]])
    else none
  | _ => none

/-- Function `or_to_nand` (src/lib.rs:113-122): asserts the node is an
`Or` with exactly two branches, pops the two arguments, and builds
`Nand(Nand(x, x), Nand(y, y))`. -/
def or_to_nand : Tree → Option Tree
  | Tree.new tok [a1, a2] =>
    if tok = Token.FuncIdent "Or" then
      some (nand [nand [a1, a1], nand [a2, a2]])
    else none
  | _ => none

mutual

/-- Function `to_nand` (src/lib.rs:81-99, identical in src/tree.rs):
rewrites all branches first (post-order), then dispatches on the node's
token: `And` and `Or` nodes are expanded, a `Nand` node or a leaf is
returned unchanged, and any other shape hits `panic!` (modelled by
`none`). -/
def to_nand : Tree → Option Tree
  | Tree.new tok br =>
    match to_nand_list br with
    | none => none
    | some br' =>
      if tok = Token.FuncIdent "And" then and_to_nand (Tree.new tok br')
      else if tok = Token.FuncIdent "Or" then or_to_nand (Tree.new tok br')
      else if tok = Token.FuncIdent "Nand" ∨ br'.length = 0 then
        some (Tree.new tok br')
      else none

/-- Branch-by-branch rewriting loop of `to_nand` (the `for branch in
tree.branches` loop); a panic in any branch propagates. -/
def to_nand_list : List Tree → Option (List Tree)
  | [] => some []
  | t :: ts =>
    match to_nand t, to_nand_list ts with
    | some t', some ts' => some (t' :: ts')
    | _, _ => none

end

mutual

/-- Function `to_string` (src/tree.rs:27-44): renders a tree back to
call-expression text.  A `FuncIdent` node `expect`s at least one argument
(`none` models that panic), a `VarIdent` node renders as its identifier,
and any other token hits `panic!`. -/
def to_string : Tree → Option String
  | Tree.new (Token.FuncIdent _) [] => none
  | Tree.new (Token.FuncIdent id) (b :: bs) =>
    match to_string b, to_string_rest bs with
    | some s, some rest => some (id ++ "(" ++ s ++ rest ++ ")")
    | _, _ => none
  | Tree.new (Token.VarIdent id) _ => some id
  | _ => none

/-- Rendering loop for the remaining arguments of a function node, each
prefixed by a comma and space. -/
def to_string_rest : List Tree → Option String
  | [] => some ""
  | b :: bs =>
    match to_string b, to_string_rest bs with
    | some s, some rest => some (", " ++ s ++ rest)
    | _, _ => none

end

/-!
The recursive-descent parser.  The crate contains the same parser twice:
once inline in `src/lib.rs` (building a raw `Tree` of tokens, with no
check of the function identifier) and once in `src/parse.rs` (building a
typed `Node` and validating the identifier and arity through
`Id::parse`).  The control flow over the token stream — the `expect!`
macro, `func`, `arg_list`, `arg`, `consume` — is textually identical in
the two files; only the node construction at the end of `func` and the
leaf construction in `arg` differ.  We therefore embed the shared control
flow once, parameterized by those two constructions, and instantiate it
for each file.

The Rust functions recurse on a `Peekable` iterator; the embedding passes
the remaining token list explicitly and returns the unconsumed remainder.
A `fuel` argument bounds the recursion depth so the definition is
structural (and therefore executable in the kernel); `none` at the outer
`Option` layer means the fuel ran out, which never happens for the bounds
used below (every recursive call consumes fuel, and the grammar consumes
tokens fast enough — see the `parse_toTokens` lemmas and the concrete
evaluations, which all land in `some`).
-/

/-- Parameters distinguishing the `src/lib.rs` parser from the
`src/parse.rs` parser: the error constructor used by `expect!` for an
unexpected token (carrying `lex.next()`), the node built by `func` after
`RParen` is consumed (in `src/parse.rs` this is where `Id::parse` can
fail), and the leaf built by `arg` for a variable token. -/
structure ParserOps (α E : Type) where
  unexpTok : Option Token → E
  mkFunc : String → List α → Except E α
  mkVar : String → α

section ParserDef

variable {α E : Type} (ops : ParserOps α E)

mutual

/-- Rule `<F> ::= FuncIdent LParen <ArgList> RParen` (function `func` in
src/lib.rs:132-139 and src/parse.rs:68-77).  Each `expect!` either
consumes the peeked token or fails with `UnexpectedToken(lex.next())`. -/
def parseFunc : Nat → List Token → Option (Except E (α × List Token))
  | 0, _ => none
  | n + 1, ts =>
    match ts with
    | Token.FuncIdent f :: ts1 =>
      match ts1 with
      | Token.LParen :: ts2 =>
        match parseArgList n ts2 with
        | none => none
        | some (Except.error e) => some (Except.error e)
        | some (Except.ok (args, ts3)) =>
          match ts3 with
          | Token.RParen :: ts4 =>
            some ((ops.mkFunc f args).map (fun a => (a, ts4)))
          | _ => some (Except.error (ops.unexpTok ts3.head?))
      | _ => some (Except.error (ops.unexpTok ts1.head?))
    | _ => some (Except.error (ops.unexpTok ts.head?))

/-- Rule `<Arg> (Delim <Arg>)*` (function `arg_list`): parses the first
argument, then the comma-led rest. -/
def parseArgList : Nat → List Token → Option (Except E (List α × List Token))
  | 0, _ => none
  | n + 1, ts =>
    match parseArg n ts with
    | none => none
    | some (Except.error e) => some (Except.error e)
    | some (Except.ok (a, ts1)) =>
      match parseArgsRest n ts1 with
      | none => none
      | some (Except.error e) => some (Except.error e)
      | some (Except.ok (rest, ts2)) => some (Except.ok (a :: rest, ts2))

/-- While-loop of `arg_list`: as long as the lookahead is a comma, consume
it and parse another argument. -/
def parseArgsRest : Nat → List Token → Option (Except E (List α × List Token))
  | 0, _ => none
  | n + 1, ts =>
    match ts with
    | Token.Delim :: ts1 =>
      match parseArg n ts1 with
      | none => none
      | some (Except.error e) => some (Except.error e)
      | some (Except.ok (a, ts2)) =>
        match parseArgsRest n ts2 with
        | none => none
        | some (Except.error e) => some (Except.error e)
        | some (Except.ok (rest, ts3)) => some (Except.ok (a :: rest, ts3))
    | _ => some (Except.ok ([], ts))

/-- Rule `VarIdent | <F>` (function `arg`): a variable token becomes a
leaf, a function token delegates to `func`, anything else (including end
of input) is `UnexpectedToken(lex.next())`. -/
def parseArg : Nat → List Token → Option (Except E (α × List Token))
  | 0, _ => none
  | n + 1, ts =>
    match ts with
    | Token.VarIdent v :: ts1 => some (Except.ok (ops.mkVar v, ts1))
    | Token.FuncIdent _ :: _ => parseFunc n ts
    | _ => some (Except.error (ops.unexpTok ts.head?))

end

end ParserDef

namespace Lib

/-- Error enum `ParseError` of src/lib.rs:177-181. -/
inductive ParseError : Type where
  | UnexpectedToken (t : Option Token) : ParseError
  | UnexpectedEnd : ParseError
deriving DecidableEq, Repr

/-- Instantiation of the shared parser for src/lib.rs: `func` builds
`Tree::new(token, args)` with no identity check, `arg` builds
`Tree::leaf(token)`. -/
def ops : ParserOps Tree ParseError where
  unexpTok := ParseError.UnexpectedToken
  mkFunc := fun f args => Except.ok (Tree.new (Token.FuncIdent f) args)
  mkVar := fun v => Tree.leaf (Token.VarIdent v)

/-- Parser entry `func` of src/lib.rs (with explicit fuel). -/
def func : Nat → List Token → Option (Except ParseError (Tree × List Token)) :=
  parseFunc ops

/-- Function `arg_list` of src/lib.rs (with explicit fuel). -/
def arg_list : Nat → List Token → Option (Except ParseError (List Tree × List Token)) :=
  parseArgList ops

/-- Function `translate` of src/lib.rs:31-43.  It tokenizes the input,
parses with `func(&mut lex).unwrap()` — so a parse error is a panic, not a
returned `Err` — computes `to_nand(ast)` into the discarded binding
`_nand_ast`, and returns `Ok(input)` unchanged.  `none` models a panic
(from the `unwrap` or from inside `to_nand`); since `inner` otherwise
always returns `Ok`, the embedding returns `Option String` with
`some input` as the sole success value.  The fuel `5 * length + 6` is an
embedding bound that the parser never exhausts. -/
def translate (input : String) : Option String :=
  match func (5 * (tokenize input).length + 6) (tokenize input) with
  | some (Except.ok (ast, _)) => (to_nand ast).map (fun _ => input)
  | _ => none

end Lib

namespace Parse

/-- Constant `AND_ID` of src/parse.rs. -/
def AND_ID : String := "And"

/-- Constant `OR_ID` of src/parse.rs. -/
def OR_ID : String := "Or"

/-- Constant `NAND_ID` of src/parse.rs. -/
def NAND_ID : String := "Nand"

/-- Gate enumeration `Id` of src/parse.rs:11-16. -/
inductive Id : Type where
  | And : Id
  | Or : Id
  | Nand : Id
deriving DecidableEq, Repr

/-- Function `Id::parse` (src/parse.rs:21-28): a match with guards that
recognizes each gate name only when applied to exactly two arguments. -/
def Id.parse (id : String) (num_args : Nat) : Option Id :=
  if id = AND_ID ∧ num_args = 2 then some Id.And
  else if id = OR_ID ∧ num_args = 2 then some Id.Or
  else if id = NAND_ID ∧ num_args = 2 then some Id.Nand
  else none

/-- AST type `Node` of the typed parser: either a function node with a
validated gate identity, or a variable leaf.  (`src/parse.rs` builds this
type; the spec describes it in its data-model section.) -/
inductive Node : Type where
  | Func (id : Id) (args : List Node) : Node
  | Var (id : String) : Node

/-- Error enum `ParseError` of src/parse.rs:118-123. -/
inductive ParseError : Type where
  | UnexpectedToken (t : Option Token) : ParseError
  | InvalidFunctionId (id : String) : ParseError
  | UnexpectedEnd : ParseError
deriving DecidableEq, Repr

/-- Instantiation of the shared parser for src/parse.rs: after the closing
parenthesis, `func` looks the identifier and argument count up through
`Id::parse` and fails with `InvalidFunctionId` when the lookup misses;
`arg` builds `Node::Var` from the token's string. -/
def ops : ParserOps Node ParseError where
  unexpTok := ParseError.UnexpectedToken
  mkFunc := fun f args =>
    match Id.parse f args.length with
    | some i => Except.ok (Node.Func i args)
    | none => Except.error (ParseError.InvalidFunctionId f)
  mkVar := fun v => Node.Var v

/-- Parser nonterminal `func` of src/parse.rs (with explicit fuel). -/
def func : Nat → List Token → Option (Except ParseError (Node × List Token)) :=
  parseFunc ops

/-- Function `arg_list` of src/parse.rs (with explicit fuel). -/
def arg_list : Nat → List Token → Option (Except ParseError (List Node × List Token)) :=
  parseArgList ops

/-- Start symbol `start` of src/parse.rs:57-65, rule `<S> ::= <F> end`:
parse a `Func`, then require that no token remains; a leftover token is an
`UnexpectedToken` error carrying that token.  (The `consume(lex).err()`
call on the empty stream in the source discards its result and has no
effect.)  `none` again models fuel exhaustion, which the chosen bound
never reaches. -/
def start (ts : List Token) : Option (Except ParseError Node) :=
  match func (5 * ts.length + 6) ts with
  | none => none
  | some (Except.error e) => some (Except.error e)
  | some (Except.ok (n, rest)) =>
    match rest with
    | [] => some (Except.ok n)
    | t :: _ => some (Except.error (ParseError.UnexpectedToken (some t)))

end Parse

/-!
Specification-side notions used to state the claims: the parser-output
invariant of the spec's data-model section, the class of NAND-only trees,
the token-level reading of the grammar (which token sequences form a valid
call-expression), and a conversion from raw `Tree`s to typed `Node`s used
to relate the two parsers.
-/

/-- Trees satisfying the invariant the spec states for parser output: a
variable leaf, or a function node whose identifier is one of the three
gates applied to exactly two arguments. -/
inductive Wf : Tree → Prop where
  | var (v : String) : Wf (Tree.new (Token.VarIdent v) [])
  | func (f : String) (a b : Tree) :
      f = "And" ∨ f = "Or" ∨ f = "Nand" → Wf a → Wf b →
      Wf (Tree.new (Token.FuncIdent f) [a, b])

/-- Trees all of whose function nodes are `Nand` and whose variable nodes
are bare leaves (the NAND-only normal form of the spec). -/
inductive NandOnly : Tree → Prop where
  | var (v : String) : NandOnly (Tree.new (Token.VarIdent v) [])
  | nand (br : List Tree) : (∀ t ∈ br, NandOnly t) →
      NandOnly (Tree.new (Token.FuncIdent "Nand") br)

/-- Invariant of claim C10: every node carrying a `FuncIdent` token has at
least one branch. -/
inductive ArgsNonEmpty : Tree → Prop where
  | mk (tok : Token) (br : List Tree) :
      (∀ f, tok = Token.FuncIdent f → br ≠ []) →
      (∀ c ∈ br, ArgsNonEmpty c) → ArgsNonEmpty (Tree.new tok br)

/-- Trees whose root is a function call (the start symbol of the grammar
derives `Func`, never a bare variable). -/
def IsCall (t : Tree) : Prop :=
  ∃ f args, t = Tree.new (Token.FuncIdent f) args

mutual

/-- Token sequence of the canonical call-expression denoting a tree,
read off the grammar rules `Func ::= FuncIdent ( ArgList )` and
`ArgList ::= Arg (, Arg)*`.  This is how the claims' phrase "a valid
call-expression over the gate set" is made precise: an input text is valid
when it tokenizes to `toTokens t` for a well-formed call tree `t`. -/
def toTokens : Tree → List Token
  | Tree.new tok [] => [tok]
  | Tree.new tok (b :: bs) =>
    tok :: Token.LParen :: (toTokens b ++ toTokensRest bs) ++ [Token.RParen]

/-- Token sequence of the second and later arguments, each preceded by the
comma token. -/
def toTokensRest : List Tree → List Token
  | [] => []
  | b :: bs => Token.Delim :: toTokens b ++ toTokensRest bs

end

/-- Gate identity denoted by one of the three recognized identifiers
(unspecified junk value elsewhere); used only to relate the two parsers on
trees whose identifiers were validated. -/
def gateOf (f : String) : Parse.Id :=
  if f = "And" then Parse.Id.And
  else if f = "Or" then Parse.Id.Or
  else Parse.Id.Nand

mutual

/-- Typed node denoted by a raw token tree (junk on shapes the parsers
never produce); relates the `src/lib.rs` parser's output to the
`src/parse.rs` parser's output. -/
def nodeOf : Tree → Parse.Node
  | Tree.new (Token.FuncIdent f) br => Parse.Node.Func (gateOf f) (nodeOfList br)
  | Tree.new (Token.VarIdent v) _ => Parse.Node.Var v
  | Tree.new _ _ => Parse.Node.Var ""

/-- Pointwise `nodeOf` over a branch list. -/
def nodeOfList : List Tree → List Parse.Node
  | [] => []
  | t :: ts => nodeOf t :: nodeOfList ts

end

mutual

/-- First function identifier of a raw tree, in post-order, that fails the
`Id::parse` lookup (name not a gate, or gate with argument count other
than two); `none` when every function node passes.  Post-order is the
order in which the `src/parse.rs` parser performs the lookups. -/
def firstBad : Tree → Option String
  | Tree.new tok br =>
    match firstBadList br with
    | some f => some f
    | none =>
      match tok with
      | Token.FuncIdent f =>
        match Parse.Id.parse f br.length with
        | some _ => none
        | none => some f
      | _ => none

/-- First failing identifier in a branch list, scanned left to right. -/
def firstBadList : List Tree → Option String
  | [] => none
  | t :: ts =>
    match firstBad t with
    | some f => some f
    | none => firstBadList ts

end

end Nandu

/-!
Theorems.  First the supporting lemmas (rewrite-engine facts, the
round-trip of the parser on serialized trees, the simulation between the
two parser copies, and the structural invariants of parser output), then
one theorem per claim, each with its witness where the statement carries
hypotheses.
-/
namespace Nandu

lemma to_nand_list_eq_self (br : List Tree) (h : ∀ t ∈ br, to_nand t = some t) :
    to_nand_list br = some br := by
  induction br with
  | nil => rfl
  | cons t ts ih =>
    simp only [to_nand_list]
    rw [h t (by simp), ih (fun x hx => h x (by simp [hx]))]

lemma to_nand_nandOnly (t : Tree) (h : NandOnly t) : to_nand t = some t := by
  induction h with
  | var v => rfl
  | nand br hbr ih =>
    have hl : to_nand_list br = some br := to_nand_list_eq_self br ih
    simp [to_nand, hl]

lemma to_nand_isSome_wf (t : Tree) (h : Wf t) : (to_nand t).isSome := by
  induction h with
  | var v => rfl
  | func f a b hf ha hb iha ihb =>
    obtain ⟨a', ha'⟩ := Option.isSome_iff_exists.mp iha
    obtain ⟨b', hb'⟩ := Option.isSome_iff_exists.mp ihb
    rcases hf with rfl | rfl | rfl
    · simp [to_nand, to_nand_list, ha', hb', and_to_nand, nand]
    · simp [to_nand, to_nand_list, ha', hb', or_to_nand, nand]
    · simp [to_nand, to_nand_list, ha', hb']

lemma to_nand_and_node (x y x' y' : Tree) (hx : to_nand x = some x') (hy : to_nand y = some y') :
    to_nand (Tree.new (Token.FuncIdent "And") [x, y]) =
      some (nand [nand [x', y'], nand [x', y']]) := by
  simp [to_nand, to_nand_list, hx, hy, and_to_nand, nand]

lemma to_nand_or_node (x y x' y' : Tree) (hx : to_nand x = some x') (hy : to_nand y = some y') :
    to_nand (Tree.new (Token.FuncIdent "Or") [x, y]) =
      some (nand [nand [x', x'], nand [y', y']]) := by
  simp [to_nand, to_nand_list, hx, hy, or_to_nand, nand]

end Nandu

namespace Nandu

lemma parseArg_cons_func {α E : Type} (ops : ParserOps α E) (n : Nat) (f : String) (ts : List Token) :
    parseArg ops (n + 1) (Token.FuncIdent f :: ts) = parseFunc ops n (Token.FuncIdent f :: ts) := by
  simp [parseArg]

lemma parseFunc_cons {α E : Type} (ops : ParserOps α E) (n : Nat) (f : String) (ts : List Token) :
    parseFunc ops (n + 1) (Token.FuncIdent f :: Token.LParen :: ts) =
      match parseArgList ops n ts with
      | none => none
      | some (Except.error e) => some (Except.error e)
      | some (Except.ok (args, ts3)) =>
        match ts3 with
        | Token.RParen :: ts4 => some ((ops.mkFunc f args).map (fun a => (a, ts4)))
        | _ => some (Except.error (ops.unexpTok ts3.head?)) := by
  simp [parseFunc]

lemma parseArgList_succ {α E : Type} (ops : ParserOps α E) (n : Nat) (ts : List Token) :
    parseArgList ops (n + 1) ts =
      match parseArg ops n ts with
      | none => none
      | some (Except.error e) => some (Except.error e)
      | some (Except.ok (a, ts1)) =>
        match parseArgsRest ops n ts1 with
        | none => none
        | some (Except.error e) => some (Except.error e)
        | some (Except.ok (rest, ts2)) => some (Except.ok (a :: rest, ts2)) := by
  simp [parseArgList]

lemma parseArgsRest_delim {α E : Type} (ops : ParserOps α E) (n : Nat) (ts : List Token) :
    parseArgsRest ops (n + 1) (Token.Delim :: ts) =
      match parseArg ops n ts with
      | none => none
      | some (Except.error e) => some (Except.error e)
      | some (Except.ok (a, ts2)) =>
        match parseArgsRest ops n ts2 with
        | none => none
        | some (Except.error e) => some (Except.error e)
        | some (Except.ok (rest, ts3)) => some (Except.ok (a :: rest, ts3)) := by
  simp [parseArgsRest]

lemma parseArgsRest_rparen {α E : Type} (ops : ParserOps α E) (n : Nat) (ts : List Token) :
    parseArgsRest ops (n + 1) (Token.RParen :: ts) = some (Except.ok ([], Token.RParen :: ts)) := by
  simp [parseArgsRest]

lemma lib_parseArg_toTokens (t : Tree) (hwf : Wf t) :
    ∀ rest n, 5 * (toTokens t).length + 5 * rest.length + 7 ≤ n →
    parseArg Lib.ops n (toTokens t ++ rest) = some (Except.ok (t, rest)) := by
  induction hwf with
  | var v =>
    intro rest n hn
    obtain ⟨m, rfl⟩ : ∃ m, n = m + 1 := ⟨n - 1, by omega⟩
    simp [toTokens, parseArg, Lib.ops, Tree.leaf]
  | func f a b hf ha hb iha ihb =>
    intro rest n hn
    simp only [toTokens, toTokensRest, List.append_nil, List.nil_append, List.cons_append,
      List.append_assoc, List.length_cons, List.length_append] at hn ⊢
    obtain ⟨m, rfl⟩ : ∃ m, n = m + 5 := ⟨n - 5, by omega⟩
    have Ha := iha (Token.Delim :: (toTokens b ++ Token.RParen :: rest)) (m + 2)
      (by simp only [List.length_cons, List.length_append]; omega)
    have Hb := ihb (Token.RParen :: rest) (m + 1)
      (by simp only [List.length_cons]; omega)
    rw [parseArg_cons_func, parseFunc_cons, parseArgList_succ, Ha]
    simp only []
    rw [parseArgsRest_delim, Hb]
    simp only []
    rw [parseArgsRest_rparen]
    simp [Lib.ops, Except.map]

end Nandu

namespace Nandu

lemma lib_parseFunc_toTokens (t : Tree) (hwf : Wf t) (hcall : IsCall t) :
    ∀ rest n, 5 * (toTokens t).length + 5 * rest.length + 6 ≤ n →
    parseFunc Lib.ops n (toTokens t ++ rest) = some (Except.ok (t, rest)) := by
  intro rest n hn
  cases hwf with
  | var v =>
    obtain ⟨f, args, heq⟩ := hcall
    simp at heq
  | func f a b hf ha hb =>
    have harg := lib_parseArg_toTokens _ (Wf.func f a b hf ha hb) rest (n + 1) (by omega)
    rw [show toTokens (Tree.new (Token.FuncIdent f) [a, b]) ++ rest
        = Token.FuncIdent f :: (Token.LParen :: (toTokens a ++ toTokensRest [b]) ++ [Token.RParen] ++ rest) from by
      simp [toTokens, toTokensRest]] at harg ⊢
    rw [parseArg_cons_func] at harg
    exact harg

lemma translate_of_wf (s : String) (t : Tree) (htok : tokenize s = toTokens t)
    (hwf : Wf t) (hcall : IsCall t) : Lib.translate s = some s := by
  unfold Lib.translate Lib.func
  rw [htok]
  have h := lib_parseFunc_toTokens t hwf hcall [] (5 * (toTokens t).length + 6) (by simp)
  rw [List.append_nil] at h
  rw [h]
  obtain ⟨t', ht'⟩ := Option.isSome_iff_exists.mp (to_nand_isSome_wf t hwf)
  simp [ht']

end Nandu

namespace Nandu

lemma nodeOfList_length (l : List Tree) : (nodeOfList l).length = l.length := by
  induction l with
  | nil => rfl
  | cons t ts ih => simp [nodeOfList, ih]

lemma gateOf_of_parse (f : String) (k : Nat) (i : Parse.Id)
    (h : Parse.Id.parse f k = some i) : gateOf f = i := by
  unfold Parse.Id.parse Parse.AND_ID Parse.OR_ID Parse.NAND_ID at h
  split_ifs at h with h1 h2 h3
  · obtain ⟨rfl, -⟩ := h1
    simp only [Option.some.injEq] at h
    subst h
    simp [gateOf]
  · obtain ⟨rfl, -⟩ := h2
    simp only [Option.some.injEq] at h
    subst h
    simp [gateOf]
  · obtain ⟨rfl, -⟩ := h3
    simp only [Option.some.injEq] at h
    subst h
    simp [gateOf]

lemma Id_parse_arity (f : String) (k : Nat) (i : Parse.Id)
    (h : Parse.Id.parse f k = some i) : k = 2 := by
  unfold Parse.Id.parse at h
  split_ifs at h with h1 h2 h3
  · exact h1.2
  · exact h2.2
  · exact h3.2

/-- Simulation result relating the two copies of the parser: whenever the
unchecked `src/lib.rs` parser succeeds and returns a raw tree, the checked
`src/parse.rs` parser on the same tokens either returns the corresponding
typed node (when every function identifier passes `Id::parse`) or fails
with `InvalidFunctionId` naming the first failing identifier in
post-order. -/
lemma sim : ∀ n : Nat,
    (∀ ts t rest, parseFunc Lib.ops n ts = some (Except.ok (t, rest)) →
      parseFunc Parse.ops n ts =
        (match firstBad t with
         | none => some (Except.ok (nodeOf t, rest))
         | some g => some (Except.error (Parse.ParseError.InvalidFunctionId g)))) ∧
    (∀ ts t rest, parseArg Lib.ops n ts = some (Except.ok (t, rest)) →
      parseArg Parse.ops n ts =
        (match firstBad t with
         | none => some (Except.ok (nodeOf t, rest))
         | some g => some (Except.error (Parse.ParseError.InvalidFunctionId g)))) ∧
    (∀ ts l rest, parseArgList Lib.ops n ts = some (Except.ok (l, rest)) →
      parseArgList Parse.ops n ts =
        (match firstBadList l with
         | none => some (Except.ok (nodeOfList l, rest))
         | some g => some (Except.error (Parse.ParseError.InvalidFunctionId g)))) ∧
    (∀ ts l rest, parseArgsRest Lib.ops n ts = some (Except.ok (l, rest)) →
      parseArgsRest Parse.ops n ts =
        (match firstBadList l with
         | none => some (Except.ok (nodeOfList l, rest))
         | some g => some (Except.error (Parse.ParseError.InvalidFunctionId g)))) := by
  intro n
  induction n with
  | zero =>
    refine ⟨?_, ?_, ?_, ?_⟩ <;> intro ts x rest h <;>
      simp [parseFunc, parseArg, parseArgList, parseArgsRest] at h
  | succ n ih =>
    obtain ⟨ihF, ihA, ihL, ihR⟩ := ih
    refine ⟨?_, ?_, ?_, ?_⟩
    · -- parseFunc
      intro ts t rest h
      rcases ts with _ | ⟨tok, ts1⟩
      · simp [parseFunc] at h
      cases tok with
      | FuncIdent f =>
        rcases ts1 with _ | ⟨tok2, ts2⟩
        · simp [parseFunc] at h
        cases tok2 with
        | LParen =>
          rw [parseFunc_cons] at h ⊢
          rcases hL : parseArgList Lib.ops n ts2 with _ | ⟨e | ⟨args, ts3⟩⟩
          · rw [hL] at h; simp at h
          · rw [hL] at h; simp at h
          · rw [hL] at h
            simp only [] at h
            rcases ts3 with _ | ⟨tok3, ts4⟩
            · simp at h
            cases tok3 with
            | RParen =>
              simp only [Lib.ops, Except.map, Option.some.injEq, Except.ok.injEq,
                Prod.mk.injEq] at h
              obtain ⟨rfl, rfl⟩ := h
              have hPL := ihL ts2 args (Token.RParen :: ts4) hL
              rw [hPL]
              rcases hB : firstBadList args with _ | g
              · rcases hid : Parse.Id.parse f args.length with _ | i
                · simp [hB, hid, Parse.ops, nodeOfList_length, firstBad, Except.map]
                · have hg := gateOf_of_parse f args.length i hid
                  simp [hB, hid, hg, Parse.ops, nodeOfList_length, firstBad, nodeOf, Except.map]
              · simp [hB, firstBad]
            | LParen => simp at h
            | Delim => simp at h
            | FuncIdent g => simp at h
            | VarIdent v => simp at h
            | LexError => simp at h
        | RParen => simp [parseFunc] at h
        | Delim => simp [parseFunc] at h
        | FuncIdent g => simp [parseFunc] at h
        | VarIdent v => simp [parseFunc] at h
        | LexError => simp [parseFunc] at h
      | LParen => simp [parseFunc] at h
      | RParen => simp [parseFunc] at h
      | Delim => simp [parseFunc] at h
      | VarIdent v => simp [parseFunc] at h
      | LexError => simp [parseFunc] at h
    · -- parseArg
      intro ts t rest h
      rcases ts with _ | ⟨tok, ts1⟩
      · simp [parseArg] at h
      cases tok with
      | VarIdent v =>
        simp only [parseArg, Lib.ops, Option.some.injEq, Except.ok.injEq, Prod.mk.injEq] at h
        obtain ⟨rfl, rfl⟩ := h
        simp [parseArg, Parse.ops, firstBad, firstBadList, nodeOf, Tree.leaf]
      | FuncIdent f =>
        rw [parseArg_cons_func] at h ⊢
        exact ihF _ t rest h
      | LParen => simp [parseArg] at h
      | RParen => simp [parseArg] at h
      | Delim => simp [parseArg] at h
      | LexError => simp [parseArg] at h
    · -- parseArgList
      intro ts l rest h
      rw [parseArgList_succ] at h ⊢
      rcases hA : parseArg Lib.ops n ts with _ | ⟨e | ⟨a, ts1⟩⟩
      · rw [hA] at h; simp at h
      · rw [hA] at h; simp at h
      · rw [hA] at h
        simp only [] at h
        rcases hR : parseArgsRest Lib.ops n ts1 with _ | ⟨e | ⟨l2, ts2⟩⟩
        · rw [hR] at h; simp at h
        · rw [hR] at h; simp at h
        · rw [hR] at h
          simp only [Option.some.injEq, Except.ok.injEq, Prod.mk.injEq] at h
          obtain ⟨rfl, rfl⟩ := h
          have hPA := ihA ts a ts1 hA
          have hPR := ihR ts1 l2 ts2 hR
          rcases hBa : firstBad a with _ | g
          · rcases hBl : firstBadList l2 with _ | g2 <;>
              simp only [hBa, hBl] at hPA hPR <;>
              simp [hPA, hPR, firstBadList, hBa, hBl, nodeOfList]
          · simp only [hBa] at hPA
            simp [hPA, firstBadList, hBa]
    · -- parseArgsRest
      intro ts l rest h
      rcases ts with _ | ⟨tok, ts1⟩
      · simp only [parseArgsRest, Option.some.injEq, Except.ok.injEq, Prod.mk.injEq] at h
        obtain ⟨rfl, rfl⟩ := h
        simp [parseArgsRest, firstBadList, nodeOfList]
      cases tok with
      | Delim =>
        rw [parseArgsRest_delim] at h ⊢
        rcases hA : parseArg Lib.ops n ts1 with _ | ⟨e | ⟨a, ts2⟩⟩
        · rw [hA] at h; simp at h
        · rw [hA] at h; simp at h
        · rw [hA] at h
          simp only [] at h
          rcases hR : parseArgsRest Lib.ops n ts2 with _ | ⟨e | ⟨l2, ts3⟩⟩
          · rw [hR] at h; simp at h
          · rw [hR] at h; simp at h
          · rw [hR] at h
            simp only [Option.some.injEq, Except.ok.injEq, Prod.mk.injEq] at h
            obtain ⟨rfl, rfl⟩ := h
            have hPA := ihA ts1 a ts2 hA
            have hPR := ihR ts2 l2 ts3 hR
            rcases hBa : firstBad a with _ | g
            · rcases hBl : firstBadList l2 with _ | g2 <;>
                simp only [hBa, hBl] at hPA hPR <;>
                simp [hPA, hPR, firstBadList, hBa, hBl, nodeOfList]
            · simp only [hBa] at hPA
              simp [hPA, firstBadList, hBa]
      | LParen =>
        simp only [parseArgsRest, Option.some.injEq, Except.ok.injEq, Prod.mk.injEq] at h
        obtain ⟨rfl, rfl⟩ := h
        simp [parseArgsRest, firstBadList, nodeOfList]
      | RParen =>
        simp only [parseArgsRest, Option.some.injEq, Except.ok.injEq, Prod.mk.injEq] at h
        obtain ⟨rfl, rfl⟩ := h
        simp [parseArgsRest, firstBadList, nodeOfList]
      | FuncIdent f =>
        simp only [parseArgsRest, Option.some.injEq, Except.ok.injEq, Prod.mk.injEq] at h
        obtain ⟨rfl, rfl⟩ := h
        simp [parseArgsRest, firstBadList, nodeOfList]
      | VarIdent v =>
        simp only [parseArgsRest, Option.some.injEq, Except.ok.injEq, Prod.mk.injEq] at h
        obtain ⟨rfl, rfl⟩ := h
        simp [parseArgsRest, firstBadList, nodeOfList]
      | LexError =>
        simp only [parseArgsRest, Option.some.injEq, Except.ok.injEq, Prod.mk.injEq] at h
        obtain ⟨rfl, rfl⟩ := h
        simp [parseArgsRest, firstBadList, nodeOfList]

end Nandu

namespace Nandu

lemma firstBad_none_of_wf (t : Tree) (h : Wf t) : firstBad t = none := by
  induction h with
  | var v => rfl
  | func f a b hf ha hb iha ihb =>
    rcases hf with rfl | rfl | rfl <;>
      simp [firstBad, firstBadList, iha, ihb, Parse.Id.parse,
        Parse.AND_ID, Parse.OR_ID, Parse.NAND_ID]

lemma firstBad_isSome_of_root_bad (f : String) (args : List Tree)
    (h : Parse.Id.parse f args.length = none) :
    ∃ g, firstBad (Tree.new (Token.FuncIdent f) args) = some g := by
  cases hB : firstBadList args with
  | some g => exact ⟨g, by simp [firstBad, hB]⟩
  | none => exact ⟨f, by simp [firstBad, hB, h]⟩

lemma Id_parse_eq_none (f : String) (k : Nat)
    (h : ¬((f = "And" ∨ f = "Or" ∨ f = "Nand") ∧ k = 2)) :
    Parse.Id.parse f k = none := by
  unfold Parse.Id.parse Parse.AND_ID Parse.OR_ID Parse.NAND_ID
  split_ifs with h1 h2 h3
  · exact absurd ⟨Or.inl h1.1, h1.2⟩ h
  · exact absurd ⟨Or.inr (Or.inl h2.1), h2.2⟩ h
  · exact absurd ⟨Or.inr (Or.inr h3.1), h3.2⟩ h
  · rfl

lemma parse_start_of_wf (s : String) (t : Tree) (htok : tokenize s = toTokens t)
    (hwf : Wf t) (hcall : IsCall t) :
    Parse.start (tokenize s) = some (Except.ok (nodeOf t)) := by
  unfold Parse.start Parse.func
  rw [htok]
  have hLib := lib_parseFunc_toTokens t hwf hcall [] (5 * (toTokens t).length + 6) (by simp)
  rw [List.append_nil] at hLib
  have hSim := (sim (5 * (toTokens t).length + 6)).1 _ _ _ hLib
  rw [firstBad_none_of_wf t hwf] at hSim
  simp only [] at hSim
  rw [hSim]

lemma lib_args_nonempty : ∀ n : Nat,
    (∀ ts t rest, parseFunc Lib.ops n ts = some (Except.ok (t, rest)) → ArgsNonEmpty t) ∧
    (∀ ts t rest, parseArg Lib.ops n ts = some (Except.ok (t, rest)) → ArgsNonEmpty t) ∧
    (∀ ts l rest, parseArgList Lib.ops n ts = some (Except.ok (l, rest)) →
      (∀ c ∈ l, ArgsNonEmpty c) ∧ l ≠ []) ∧
    (∀ ts l rest, parseArgsRest Lib.ops n ts = some (Except.ok (l, rest)) →
      ∀ c ∈ l, ArgsNonEmpty c) := by
  intro n
  induction n with
  | zero =>
    refine ⟨?_, ?_, ?_, ?_⟩ <;> intro ts x rest h <;>
      simp [parseFunc, parseArg, parseArgList, parseArgsRest] at h
  | succ n ih =>
    obtain ⟨ihF, ihA, ihL, ihR⟩ := ih
    refine ⟨?_, ?_, ?_, ?_⟩
    · intro ts t rest h
      rcases ts with _ | ⟨tok, ts1⟩
      · simp [parseFunc] at h
      cases tok with
      | FuncIdent f =>
        rcases ts1 with _ | ⟨tok2, ts2⟩
        · simp [parseFunc] at h
        cases tok2 with
        | LParen =>
          rw [parseFunc_cons] at h
          rcases hL : parseArgList Lib.ops n ts2 with _ | ⟨e | ⟨args, ts3⟩⟩
          · rw [hL] at h; simp at h
          · rw [hL] at h; simp at h
          · rw [hL] at h
            simp only [] at h
            rcases ts3 with _ | ⟨tok3, ts4⟩
            · simp at h
            cases tok3 with
            | RParen =>
              simp only [Lib.ops, Except.map, Option.some.injEq, Except.ok.injEq,
                Prod.mk.injEq] at h
              obtain ⟨rfl, rfl⟩ := h
              obtain ⟨hall, hne⟩ := ihL ts2 args (Token.RParen :: ts4) hL
              exact ArgsNonEmpty.mk _ _ (fun f' _ => hne) hall
            | LParen => simp at h
            | Delim => simp at h
            | FuncIdent g => simp at h
            | VarIdent v => simp at h
            | LexError => simp at h
        | RParen => simp [parseFunc] at h
        | Delim => simp [parseFunc] at h
        | FuncIdent g => simp [parseFunc] at h
        | VarIdent v => simp [parseFunc] at h
        | LexError => simp [parseFunc] at h
      | LParen => simp [parseFunc] at h
      | RParen => simp [parseFunc] at h
      | Delim => simp [parseFunc] at h
      | VarIdent v => simp [parseFunc] at h
      | LexError => simp [parseFunc] at h
    · intro ts t rest h
      rcases ts with _ | ⟨tok, ts1⟩
      · simp [parseArg] at h
      cases tok with
      | VarIdent v =>
        simp only [parseArg, Lib.ops, Option.some.injEq, Except.ok.injEq, Prod.mk.injEq] at h
        obtain ⟨rfl, rfl⟩ := h
        exact ArgsNonEmpty.mk _ _ (fun f' hf' => by simp [Tree.leaf] at hf') (by simp)
      | FuncIdent f =>
        rw [parseArg_cons_func] at h
        exact ihF _ t rest h
      | LParen => simp [parseArg] at h
      | RParen => simp [parseArg] at h
      | Delim => simp [parseArg] at h
      | LexError => simp [parseArg] at h
    · intro ts l rest h
      rw [parseArgList_succ] at h
      rcases hA : parseArg Lib.ops n ts with _ | ⟨e | ⟨a, ts1⟩⟩
      · rw [hA] at h; simp at h
      · rw [hA] at h; simp at h
      · rw [hA] at h
        simp only [] at h
        rcases hR : parseArgsRest Lib.ops n ts1 with _ | ⟨e | ⟨l2, ts2⟩⟩
        · rw [hR] at h; simp at h
        · rw [hR] at h; simp at h
        · rw [hR] at h
          simp only [Option.some.injEq, Except.ok.injEq, Prod.mk.injEq] at h
          obtain ⟨rfl, rfl⟩ := h
          refine ⟨?_, by simp⟩
          intro c hc
          rcases List.mem_cons.mp hc with rfl | hc2
          · exact ihA ts c ts1 hA
          · exact ihR ts1 l2 ts2 hR c hc2
    · intro ts l rest h
      rcases ts with _ | ⟨tok, ts1⟩
      · simp only [parseArgsRest, Option.some.injEq, Except.ok.injEq, Prod.mk.injEq] at h
        obtain ⟨rfl, rfl⟩ := h
        intro c hc
        simp at hc
      cases tok with
      | Delim =>
        rw [parseArgsRest_delim] at h
        rcases hA : parseArg Lib.ops n ts1 with _ | ⟨e | ⟨a, ts2⟩⟩
        · rw [hA] at h; simp at h
        · rw [hA] at h; simp at h
        · rw [hA] at h
          simp only [] at h
          rcases hR : parseArgsRest Lib.ops n ts2 with _ | ⟨e | ⟨l2, ts3⟩⟩
          · rw [hR] at h; simp at h
          · rw [hR] at h; simp at h
          · rw [hR] at h
            simp only [Option.some.injEq, Except.ok.injEq, Prod.mk.injEq] at h
            obtain ⟨rfl, rfl⟩ := h
            intro c hc
            rcases List.mem_cons.mp hc with rfl | hc2
            · exact ihA ts1 c ts2 hA
            · exact ihR ts2 l2 ts3 hR c hc2
      | LParen =>
        simp only [parseArgsRest, Option.some.injEq, Except.ok.injEq, Prod.mk.injEq] at h
        obtain ⟨rfl, rfl⟩ := h
        intro c hc
        simp at hc
      | RParen =>
        simp only [parseArgsRest, Option.some.injEq, Except.ok.injEq, Prod.mk.injEq] at h
        obtain ⟨rfl, rfl⟩ := h
        intro c hc
        simp at hc
      | FuncIdent f =>
        simp only [parseArgsRest, Option.some.injEq, Except.ok.injEq, Prod.mk.injEq] at h
        obtain ⟨rfl, rfl⟩ := h
        intro c hc
        simp at hc
      | VarIdent v =>
        simp only [parseArgsRest, Option.some.injEq, Except.ok.injEq, Prod.mk.injEq] at h
        obtain ⟨rfl, rfl⟩ := h
        intro c hc
        simp at hc
      | LexError =>
        simp only [parseArgsRest, Option.some.injEq, Except.ok.injEq, Prod.mk.injEq] at h
        obtain ⟨rfl, rfl⟩ := h
        intro c hc
        simp at hc

end Nandu

namespace Nandu

/-- Claim C1 (code bug).  The spec says `translate` returns the canonical
rendering of the fully NAND-expanded tree, e.g. `And(a, b)` yields
`Nand(Nand(a, b), Nand(a, b))`.  The code parses `And(a, b)`, computes the
correct expansion into the binding `_nand_ast` — whose rendering is
exactly the text the spec promises — but then discards it and returns
`Ok(input)`: `translate "And(a, b)"` evaluates to `Ok "And(a, b)"`, not to
the NAND expansion. -/
theorem C1_translate_returns_input_unchanged :
    Lib.func (5 * (tokenize "And(a, b)").length + 6) (tokenize "And(a, b)")
      = some (Except.ok (Tree.new (Token.FuncIdent "And")
          [Tree.leaf (Token.VarIdent "a"), Tree.leaf (Token.VarIdent "b")], []))
    ∧ to_nand (Tree.new (Token.FuncIdent "And")
          [Tree.leaf (Token.VarIdent "a"), Tree.leaf (Token.VarIdent "b")])
      = some (nand [nand [Tree.leaf (Token.VarIdent "a"), Tree.leaf (Token.VarIdent "b")],
                    nand [Tree.leaf (Token.VarIdent "a"), Tree.leaf (Token.VarIdent "b")]])
    ∧ to_string (nand [nand [Tree.leaf (Token.VarIdent "a"), Tree.leaf (Token.VarIdent "b")],
                       nand [Tree.leaf (Token.VarIdent "a"), Tree.leaf (Token.VarIdent "b")]])
      = some "Nand(Nand(a, b), Nand(a, b))"
    ∧ Lib.translate "And(a, b)" = some "And(a, b)"
    ∧ "And(a, b)" ≠ "Nand(Nand(a, b), Nand(a, b))" :=
  ⟨rfl, rfl, rfl, rfl, by decide⟩

/-- Claim C2 (code bug).  The spec says invalid input makes `translate`
return a structured error to its caller and never panic.  The code calls
`func(&mut lex).unwrap()`, so a parse error is a panic (shown on
`Nand(a`, where the parser returns an `UnexpectedToken` error that
`unwrap` turns into a panic), and an unknown gate such as `Xor(a, b)`
passes the identity-check-free parser of src/lib.rs only to make
`to_nand` hit its `panic!` branch.  In both cases `translate` panics
(`none`) instead of returning an error value. -/
theorem C2_translate_panics_instead_of_returning_err :
    Lib.func (5 * (tokenize "Xor(a, b)").length + 6) (tokenize "Xor(a, b)")
      = some (Except.ok (Tree.new (Token.FuncIdent "Xor")
          [Tree.leaf (Token.VarIdent "a"), Tree.leaf (Token.VarIdent "b")], []))
    ∧ to_nand (Tree.new (Token.FuncIdent "Xor")
          [Tree.leaf (Token.VarIdent "a"), Tree.leaf (Token.VarIdent "b")]) = none
    ∧ Lib.translate "Xor(a, b)" = none
    ∧ Lib.func (5 * (tokenize "Nand(a").length + 6) (tokenize "Nand(a")
      = some (Except.error (Lib.ParseError.UnexpectedToken none))
    ∧ Lib.translate "Nand(a" = none :=
  ⟨rfl, rfl, rfl, rfl, rfl⟩

/-- Claim C3.  On every tree of the shape the spec's data-model invariant
allows for parser output — a variable leaf, or a function node whose
identifier is one of And/Or/Nand applied to exactly two arguments —
`to_nand` is total: the `panic!` branch is never reached. -/
theorem C3_to_nand_total_on_wf_trees (t : Tree) (h : Wf t) :
    (to_nand t).isSome :=
  to_nand_isSome_wf t h

/-- Witness for C3 at the concrete tree of `And(a, b)`. -/
theorem C3_to_nand_total_on_wf_trees_witness :
    (to_nand (Tree.new (Token.FuncIdent "And")
      [Tree.leaf (Token.VarIdent "a"), Tree.leaf (Token.VarIdent "b")])).isSome :=
  C3_to_nand_total_on_wf_trees _
    (Wf.func "And" _ _ (Or.inl rfl) (Wf.var "a") (Wf.var "b"))

/-- Claim C4.  Whenever the raw grammar reduces a `Func` (witnessed by the
check-free parser of src/lib.rs succeeding with root identifier `f` and
argument list `args`) whose identifier fails the gate table — an
unrecognized name, or a recognized name with argument count other than
two — the checked parser of src/parse.rs fails with an
invalid-function-identity error; in particular `And(a, b, c)` and
`Xor(a, b)` are rejected with exactly that error rather than producing a
tree. -/
theorem C4_invalid_function_identity_fails_parse (fuel : Nat) (ts : List Token)
    (f : String) (args : List Tree) (rest : List Token)
    (hredex : Lib.func fuel ts
      = some (Except.ok (Tree.new (Token.FuncIdent f) args, rest)))
    (hbad : ¬((f = "And" ∨ f = "Or" ∨ f = "Nand") ∧ args.length = 2)) :
    (∃ g, Parse.func fuel ts
      = some (Except.error (Parse.ParseError.InvalidFunctionId g)))
    ∧ Parse.start (tokenize "And(a, b, c)")
      = some (Except.error (Parse.ParseError.InvalidFunctionId "And"))
    ∧ Parse.start (tokenize "Xor(a, b)")
      = some (Except.error (Parse.ParseError.InvalidFunctionId "Xor")) := by
  refine ⟨?_, rfl, rfl⟩
  have hid := Id_parse_eq_none f args.length hbad
  obtain ⟨g, hg⟩ := firstBad_isSome_of_root_bad f args hid
  have hSim := (sim fuel).1 ts _ rest hredex
  rw [hg] at hSim
  exact ⟨g, hSim⟩

/-- Witness for C4 at the concrete input `Xor(a, b)`. -/
theorem C4_invalid_function_identity_fails_parse_witness :
    (∃ g, Parse.func (5 * (tokenize "Xor(a, b)").length + 6) (tokenize "Xor(a, b)")
      = some (Except.error (Parse.ParseError.InvalidFunctionId g)))
    ∧ Parse.start (tokenize "And(a, b, c)")
      = some (Except.error (Parse.ParseError.InvalidFunctionId "And"))
    ∧ Parse.start (tokenize "Xor(a, b)")
      = some (Except.error (Parse.ParseError.InvalidFunctionId "Xor")) :=
  C4_invalid_function_identity_fails_parse
    (5 * (tokenize "Xor(a, b)").length + 6) (tokenize "Xor(a, b)") "Xor"
    [Tree.leaf (Token.VarIdent "a"), Tree.leaf (Token.VarIdent "b")] []
    rfl (by decide)

/-- Claim C5 (code bug).  The spec (and the CLI test of the crate
`cli_error_if_trailing_parens`) requires `translate "Nand(a, b))"` to fail
with an unexpected-token error naming the extra `)`.  The `start` rule of
src/parse.rs indeed produces exactly that error, but `translate` in
src/lib.rs calls the end-check-free `func` instead: it parses `Nand(a, b)`,
leaves the trailing `)` unconsumed, and succeeds, returning the input
unchanged. -/
theorem C5_trailing_tokens_not_rejected_by_translate :
    Lib.func (5 * (tokenize "Nand(a, b))").length + 6) (tokenize "Nand(a, b))")
      = some (Except.ok (Tree.new (Token.FuncIdent "Nand")
          [Tree.leaf (Token.VarIdent "a"), Tree.leaf (Token.VarIdent "b")],
          [Token.RParen]))
    ∧ Parse.start (tokenize "Nand(a, b))")
      = some (Except.error (Parse.ParseError.UnexpectedToken (some Token.RParen)))
    ∧ Lib.translate "Nand(a, b))" = some "Nand(a, b))" :=
  ⟨rfl, rfl, rfl⟩

/-- Claim C6.  An `And` node whose children have already been rewritten to
`x'` and `y'` becomes `Nand(Nand(x', y'), Nand(x', y'))`; the two inner
`Nand` nodes are equal values (the Rust code clones the tree, so they are
independent copies). -/
theorem C6_and_rewrite (x y x' y' : Tree)
    (hx : to_nand x = some x') (hy : to_nand y = some y') :
    to_nand (Tree.new (Token.FuncIdent "And") [x, y])
      = some (nand [nand [x', y'], nand [x', y']]) :=
  to_nand_and_node x y x' y' hx hy

/-- Witness for C6 at `And(a, b)`. -/
theorem C6_and_rewrite_witness :
    to_nand (Tree.new (Token.FuncIdent "And")
        [Tree.leaf (Token.VarIdent "a"), Tree.leaf (Token.VarIdent "b")])
      = some (nand [nand [Tree.leaf (Token.VarIdent "a"), Tree.leaf (Token.VarIdent "b")],
                    nand [Tree.leaf (Token.VarIdent "a"), Tree.leaf (Token.VarIdent "b")]]) :=
  C6_and_rewrite _ _ _ _ rfl rfl

/-- Claim C7.  An `Or` node whose children have already been rewritten to
`x'` and `y'` becomes `Nand(Nand(x', x'), Nand(y', y'))`: the left operand
paired with a copy of itself, then the right operand paired with a copy of
itself, combined in that order by the outer `Nand`. -/
theorem C7_or_rewrite (x y x' y' : Tree)
    (hx : to_nand x = some x') (hy : to_nand y = some y') :
    to_nand (Tree.new (Token.FuncIdent "Or") [x, y])
      = some (nand [nand [x', x'], nand [y', y']]) :=
  to_nand_or_node x y x' y' hx hy

/-- Witness for C7 at `Or(a, b)`. -/
theorem C7_or_rewrite_witness :
    to_nand (Tree.new (Token.FuncIdent "Or")
        [Tree.leaf (Token.VarIdent "a"), Tree.leaf (Token.VarIdent "b")])
      = some (nand [nand [Tree.leaf (Token.VarIdent "a"), Tree.leaf (Token.VarIdent "a")],
                    nand [Tree.leaf (Token.VarIdent "b"), Tree.leaf (Token.VarIdent "b")]]) :=
  C7_or_rewrite _ _ _ _ rfl rfl

/-- Claim C8.  On every tree whose function nodes are all `Nand` (variable
leaves included), `to_nand` is the identity, hence idempotent on such
trees; `Nand(a, b)` in particular is a fixed point (see the witness). -/
theorem C8_nand_only_trees_are_fixed (t : Tree) (h : NandOnly t) :
    to_nand t = some t ∧ (to_nand t).bind to_nand = to_nand t := by
  have h1 := to_nand_nandOnly t h
  exact ⟨h1, by rw [h1]; simpa using h1⟩

/-- Witness for C8: `Nand(a, b)` is a fixed point of `to_nand`. -/
theorem C8_nand_only_trees_are_fixed_witness :
    to_nand (nand [Tree.leaf (Token.VarIdent "a"), Tree.leaf (Token.VarIdent "b")])
      = some (nand [Tree.leaf (Token.VarIdent "a"), Tree.leaf (Token.VarIdent "b")])
    ∧ (to_nand (nand [Tree.leaf (Token.VarIdent "a"), Tree.leaf (Token.VarIdent "b")])).bind to_nand
      = to_nand (nand [Tree.leaf (Token.VarIdent "a"), Tree.leaf (Token.VarIdent "b")]) := by
  have hN : NandOnly (nand [Tree.leaf (Token.VarIdent "a"), Tree.leaf (Token.VarIdent "b")]) := by
    refine NandOnly.nand _ ?_
    intro t ht
    simp only [List.mem_cons, List.not_mem_nil, or_false] at ht
    rcases ht with rfl | rfl <;> exact NandOnly.var _
  exact C8_nand_only_trees_are_fixed _ hN

/-- Claim C9.  For every input text that is a valid two-argument nesting
of the three gates over variables — made precise as: the text tokenizes to
the token sequence of a well-formed call tree `t` — `translate` succeeds,
and the text it returns (the input itself, since the buggy `translate`
echoes its input) is accepted by the parser. -/
theorem C9_round_trip_closure (s : String) (t : Tree)
    (htok : tokenize s = toTokens t) (hwf : Wf t) (hcall : IsCall t) :
    Lib.translate s = some s
    ∧ ∃ node, Parse.start (tokenize s) = some (Except.ok node) :=
  ⟨translate_of_wf s t htok hwf hcall,
   ⟨nodeOf t, parse_start_of_wf s t htok hwf hcall⟩⟩

/-- Witness for C9 at the concrete input `And(a, b)`. -/
theorem C9_round_trip_closure_witness :
    Lib.translate "And(a, b)" = some "And(a, b)"
    ∧ ∃ node, Parse.start (tokenize "And(a, b)") = some (Except.ok node) :=
  C9_round_trip_closure "And(a, b)"
    (Tree.new (Token.FuncIdent "And")
      [Tree.leaf (Token.VarIdent "a"), Tree.leaf (Token.VarIdent "b")])
    (by decide)
    (Wf.func "And" _ _ (Or.inl rfl) (Wf.var "a") (Wf.var "b"))
    ⟨"And", _, rfl⟩

/-- Claim C10.  Every tree the parser returns satisfies the printer's
assumption: each node carrying a `FuncIdent` token has at least one
branch, because `arg_list` always returns a non-empty argument list
(second conjunct). -/
theorem C10_parsed_func_nodes_have_args (fuel : Nat) (ts : List Token)
    (t : Tree) (rest : List Token)
    (h : Lib.func fuel ts = some (Except.ok (t, rest))) :
    ArgsNonEmpty t
    ∧ ∀ fuel' ts' l rest', Lib.arg_list fuel' ts' = some (Except.ok (l, rest')) → l ≠ [] :=
  ⟨(lib_args_nonempty fuel).1 ts t rest h,
   fun fuel' ts' l rest' h' => ((lib_args_nonempty fuel').2.2.1 ts' l rest' h').2⟩

/-- Witness for C10 at the parse of `Nand(a, b)`. -/
theorem C10_parsed_func_nodes_have_args_witness :
    ArgsNonEmpty (Tree.new (Token.FuncIdent "Nand")
      [Tree.leaf (Token.VarIdent "a"), Tree.leaf (Token.VarIdent "b")])
    ∧ ∀ fuel' ts' l rest', Lib.arg_list fuel' ts' = some (Except.ok (l, rest')) → l ≠ [] :=
  C10_parsed_func_nodes_have_args (5 * (tokenize "Nand(a, b)").length + 6)
    (tokenize "Nand(a, b)") _ [] rfl

end Nandu
